import Mathlib

/-!
Shallow embedding of the "pets" HTTP service.

The Go sources embedded here:
* `InMemoryServer` (ListPets / CreatePets / ShowPetById) — the volatile,
  map-plus-insertion-order store and its handlers.
* `Server` (ListPets / CreatePets / ShowPetById) — the repository-backed
  handlers; the repository is passed in as a function, mirroring the
  `PetRepository` interface value held by the Go struct.
* `PostgresRepository` (ListPets / CreatePet / GetPet) — the relational
  backend; its SQL statements over the `pets` table (`id BIGINT PRIMARY KEY,
  name TEXT NOT NULL, tag TEXT`) are embedded as list operations over the
  table rows, with `ORDER BY id ASC` as a sort and `LIMIT $1` as `take`.
* the Google OAuth `Handler.Callback` together with `constantTimeEqual`,
  which wraps `subtle.ConstantTimeCompare` from the Go standard library.

Machine integers (`int64` ids, `int32` limits) are modelled as `Int`; no
operation in the embedded paths can overflow (the only arithmetic is
`limit + 1` with `limit ≤ 100`). Go strings are compared byte-for-byte, so
the state comparison works on the UTF-8 bytes of the strings involved.
-/

/-- Pet record: `id` is the caller-supplied 64-bit id, `name` the pet name,
`tag` an optional tag (`none` models a nil `*string`). -/
structure Pet where
  id : Int
  name : String
  tag : Option String
deriving DecidableEq, Repr

/-- Zero value of the Go `Pet` struct, produced e.g. by indexing a map at a
missing key. -/
def zeroPet : Pet := { id := 0, name := "", tag := none }

/-- Structured error body `{"code": int, "message": string}` (the generated
`Error` schema). -/
structure Error where
  code : Int
  message : String
deriving DecidableEq, Repr

/-- Body of an HTTP response as written by the handlers: a JSON `Error`
object (`writeError`), a JSON pet array or single pet (`writeJSON`), a
plain-text message (`http.Error`), or an empty body (`201 Created`). -/
inductive HttpBody where
  | jsonError (e : Error)
  | jsonPets (pets : List Pet)
  | jsonPet (pet : Pet)
  | text (message : String)
  | empty
deriving DecidableEq, Repr

/-- Response of a pet-endpoint handler: status code, the optional `x-next`
header, and the body. -/
structure PetResponse where
  status : Nat
  xNext : Option String
  body : HttpBody
deriving DecidableEq, Repr

/-- Embeds `writeError(w, status, message)`: a response whose body is the
structured JSON error with `code` set to the status. -/
def writeError (status : Nat) (message : String) : PetResponse :=
  { status := status, xNext := none, body := .jsonError { code := status, message := message } }

/-- Embeds `validatePet`: `id != 0` and `name != ""`, reporting the first
missing field. `none` means valid. -/
def validatePet (pet : Pet) : Option String :=
  if pet.id = 0 then some "id is required"
  else if pet.name = "" then some "name is required"
  else none

/-- Ascending-id order on pets, the comparison both list paths sort by
(`sort.Slice` with `pets[i].Id < pets[j].Id`, and SQL `ORDER BY id ASC`). -/
def petIdLe (p q : Pet) : Prop := p.id ≤ q.id

instance : DecidableRel petIdLe := fun p q => inferInstanceAs (Decidable (p.id ≤ q.id))

instance : IsTotal Pet petIdLe := ⟨fun p q => Int.le_total p.id q.id⟩

instance : IsTrans Pet petIdLe := ⟨fun _ _ _ h h2 => le_trans h h2⟩

/-- Sorting a pet slice into ascending-id order. `sort.Slice` (and SQL
`ORDER BY`) produce some permutation that is nondecreasing in `id`;
insertion sort is such a permutation. -/
def sortPets (pets : List Pet) : List Pet := List.insertionSort petIdLe pets

/-- State of `InMemoryServer`: the `pets` map (association list keyed by id;
Go map keys are unique) and the `order` slice of inserted ids. -/
structure InMemoryServer where
  pets : List (Int × Pet)
  order : List Int
deriving DecidableEq, Repr

/-- Embeds `NewInMemoryServer`: empty map and empty order slice. -/
def NewInMemoryServer : InMemoryServer := { pets := [], order := [] }

/-- Lines 42–46 of the in-memory `ListPets`: walk `order` and collect
`s.pets[id]` for each id (a missing key yields the zero `Pet`, as in Go). -/
def InMemoryServer.collectPets (s : InMemoryServer) : List Pet :=
  s.order.map (fun id => (s.pets.lookup id).getD zeroPet)

/-- Lines 41–60 of the in-memory `ListPets`, after the limit has been
validated and clamped: sort the collected pets by id; if a positive limit
cuts the slice, answer the first `limit` pets and set `x-next` to
`/pets?limit=<limit>&after=<id of pets[limit]>`; otherwise answer all. -/
def InMemoryServer.listWith (s : InMemoryServer) (limit : Int) : PetResponse :=
  let sorted := sortPets s.collectPets
  if limit > 0 ∧ limit < (sorted.length : Int) then
    { status := 200,
      xNext := some ("/pets?limit=" ++ toString limit ++ "&after=" ++
        toString (sorted.getD limit.toNat zeroPet).id),
      body := .jsonPets (sorted.take limit.toNat) }
  else
    { status := 200, xNext := none, body := .jsonPets sorted }

/-- Embeds `InMemoryServer.ListPets`: `limit` defaults to 0 when the query
parameter is absent; a present negative limit is a 400; a present limit
above 100 is clamped to 100. -/
def InMemoryServer.ListPets (s : InMemoryServer) (limitParam : Option Int) : PetResponse :=
  match limitParam with
  | none => s.listWith 0
  | some l =>
    if l < 0 then writeError 400 "limit must be non-negative"
    else s.listWith (if l > 100 then 100 else l)

/-- Embeds `InMemoryServer.CreatePets`. The request body is `none` when the
JSON decoder fails, otherwise the decoded pet. Returns the new store state
together with the response; every error path leaves the state unchanged. -/
def InMemoryServer.CreatePets (s : InMemoryServer) (body : Option Pet) :
    InMemoryServer × PetResponse :=
  match body with
  | none => (s, writeError 400 "invalid JSON body")
  | some pet =>
    match validatePet pet with
    | some msg => (s, writeError 400 msg)
    | none =>
      if (s.pets.lookup pet.id).isSome then
        (s, writeError 409 "pet already exists")
      else
        ({ pets := s.pets ++ [(pet.id, pet)], order := s.order ++ [pet.id] },
         { status := 201, xNext := none, body := .empty })

/-- Embeds `InMemoryServer.ShowPetById`. `petId` is `none` when
`strconv.ParseInt` rejects the path segment, otherwise the parsed id. -/
def InMemoryServer.ShowPetById (s : InMemoryServer) (petId : Option Int) : PetResponse :=
  match petId with
  | none => writeError 400 "petId must be an integer"
  | some id =>
    match s.pets.lookup id with
    | none => writeError 404 "pet not found"
    | some pet => { status := 200, xNext := none, body := .jsonPet pet }

/-- Errors of the `PetRepository` interface: the sentinel values
`ErrPetExists` and `ErrPetNotFound`, or any other backend fault carrying its
internal detail text. -/
inductive RepoError where
  | petExists
  | petNotFound
  | other (detail : String)
deriving DecidableEq, Repr

/-- Lines 165–184 of the repository-backed `Server.ListPets`, after limit
validation and clamping: fetch `limit + 1` records when a limit is set, use
the first `limit` as the page and derive `x-next` from record `limit` when
it exists. -/
def Server.listWith (repoList : Int → Except RepoError (List Pet)) (limit : Int) : PetResponse :=
  let fetchLimit := if limit > 0 then limit + 1 else limit
  match repoList fetchLimit with
  | .error _ => writeError 500 "failed to list pets"
  | .ok pets =>
    if limit > 0 ∧ limit < (pets.length : Int) then
      { status := 200,
        xNext := some ("/pets?limit=" ++ toString limit ++ "&after=" ++
          toString (pets.getD limit.toNat zeroPet).id),
        body := .jsonPets (pets.take limit.toNat) }
    else
      { status := 200, xNext := none, body := .jsonPets pets }

/-- Embeds the repository-backed `Server.ListPets`; `repoList` stands for
the `s.repo.ListPets(ctx, fetchLimit)` call. -/
def Server.ListPets (repoList : Int → Except RepoError (List Pet))
    (limitParam : Option Int) : PetResponse :=
  match limitParam with
  | none => Server.listWith repoList 0
  | some l =>
    if l < 0 then writeError 400 "limit must be non-negative"
    else Server.listWith repoList (if l > 100 then 100 else l)

/-- Embeds the repository-backed `Server.CreatePets`; `repoCreate` stands
for `s.repo.CreatePet(ctx, pet)`. `ErrPetExists` maps to 409, any other
repository error to a 500 with a fixed message. -/
def Server.CreatePets (repoCreate : Pet → Except RepoError Unit) (body : Option Pet) :
    PetResponse :=
  match body with
  | none => writeError 400 "invalid JSON body"
  | some pet =>
    match validatePet pet with
    | some msg => writeError 400 msg
    | none =>
      match repoCreate pet with
      | .error e =>
        if e = .petExists then writeError 409 "pet already exists"
        else writeError 500 "failed to create pet"
      | .ok _ => { status := 201, xNext := none, body := .empty }

/-- Embeds the repository-backed `Server.ShowPetById`; `repoGet` stands for
`s.repo.GetPet(ctx, id)`. -/
def Server.ShowPetById (repoGet : Int → Except RepoError Pet) (petId : Option Int) :
    PetResponse :=
  match petId with
  | none => writeError 400 "petId must be an integer"
  | some id =>
    match repoGet id with
    | .error e =>
      if e = .petNotFound then writeError 404 "pet not found"
      else writeError 500 "failed to fetch pet"
    | .ok pet => { status := 200, xNext := none, body := .jsonPet pet }

/-- Rows of the `pets` table (`id BIGINT PRIMARY KEY, name TEXT NOT NULL,
tag TEXT`); a `NULL` tag is `none`. The primary key makes row ids unique in
any state the database admits. -/
structure PgTable where
  rows : List Pet
deriving DecidableEq, Repr

/-- Embeds `PostgresRepository.ListPets`: `SELECT id, name, tag FROM pets
ORDER BY id ASC`, with `LIMIT $1` pushed down when the limit is positive. -/
def PostgresRepository.ListPets (t : PgTable) (limit : Int) : List Pet :=
  let sorted := sortPets t.rows
  if limit > 0 then sorted.take limit.toNat else sorted

/-- Embeds `PostgresRepository.CreatePet`: `INSERT INTO pets` succeeds when
no row has this id and stores the pet verbatim (a `none` tag becomes SQL
`NULL`); a duplicate id raises the unique-constraint violation 23505, which
the Go code maps to `ErrPetExists`. -/
def PostgresRepository.CreatePet (t : PgTable) (pet : Pet) : Except RepoError PgTable :=
  if t.rows.any (fun q => q.id == pet.id) then .error .petExists
  else .ok { rows := t.rows ++ [pet] }

/-- Embeds `PostgresRepository.GetPet`: `SELECT id, name, tag FROM pets
WHERE id = $1`, mapping `ErrNoRows` to `ErrPetNotFound`; a `NULL` tag scans
back as `none`. -/
def PostgresRepository.GetPet (t : PgTable) (id : Int) : Except RepoError Pet :=
  match t.rows.find? (fun q => q.id == id) with
  | some pet => .ok pet
  | none => .error .petNotFound

/-- Wiring in `main`: the HTTP server is `NewServer(repo)` with `repo` the
Postgres repository over the current table state. -/
def postgresServerList (t : PgTable) (limitParam : Option Int) : PetResponse :=
  Server.ListPets (fun l => .ok (PostgresRepository.ListPets t l)) limitParam

/-- UTF-8 encoding of one character as byte values (the standard encoding
used by Go strings and `[]byte` conversion): one to four bytes depending on
the code point. -/
def utf8Bytes (c : Char) : List Nat :=
  let v := c.toNat
  if v ≤ 0x7f then [v]
  else if v ≤ 0x7ff then
    [(v >>> 6) &&& 0x1f ||| 0xc0,
     v &&& 0x3f ||| 0x80]
  else if v ≤ 0xffff then
    [(v >>> 12) &&& 0x0f ||| 0xe0,
     (v >>> 6) &&& 0x3f ||| 0x80,
     v &&& 0x3f ||| 0x80]
  else
    [(v >>> 18) &&& 0x07 ||| 0xf0,
     (v >>> 12) &&& 0x3f ||| 0x80,
     (v >>> 6) &&& 0x3f ||| 0x80,
     v &&& 0x3f ||| 0x80]

/-- UTF-8 bytes of a string: what Go's `[]byte(s)` yields and what `len(s)`
counts. -/
def strBytes (s : String) : List Nat := s.data.flatMap utf8Bytes

/-- Embeds `subtle.ConstantTimeByteEq(x, y)` from the Go standard library:
`int((uint32(x^y) - 1) >> 31)`, with the `uint32` subtraction wrapping
modulo `2^32`. -/
def constantTimeByteEq (x y : Nat) : Nat :=
  (((x ^^^ y) + (2 ^ 32 - 1)) % 2 ^ 32) >>> 31

/-- Loop of `subtle.ConstantTimeCompare`, instrumented with the number of
iterations performed: the first component is the accumulator `v` after
or-ing `x[i] ^ y[i]` over all positions, the second the iteration count. -/
def ctLoop : List Nat → List Nat → Nat → Nat × Nat
  | x :: xs, y :: ys, v =>
    let r := ctLoop xs ys (v ||| (x ^^^ y))
    (r.1, r.2 + 1)
  | _, _, v => (v, 0)

/-- Embeds `subtle.ConstantTimeCompare(x, y)`: 0 when the lengths differ
(returned before the loop runs), otherwise `ConstantTimeByteEq(v, 0)` for
the accumulated `v`. -/
def constantTimeCompare (x y : List Nat) : Nat :=
  if x.length ≠ y.length then 0
  else constantTimeByteEq (ctLoop x y 0).1 0

/-- Embeds `constantTimeEqual(a, b string) bool`: an explicit byte-length
check, then `subtle.ConstantTimeCompare([]byte(a), []byte(b)) == 1`. -/
def constantTimeEqual (a b : String) : Bool :=
  if (strBytes a).length ≠ (strBytes b).length then false
  else constantTimeCompare (strBytes a) (strBytes b) == 1

/-- State-cookie configuration held by the OAuth handler (name, domain,
path, max-age, secure flag), after `NewHandler` filled in the defaults. -/
structure OAuthStateCookieConfig where
  name : String
  domain : String
  path : String
  maxAge : Int
  secure : Bool
deriving DecidableEq, Repr

/-- An HTTP cookie as set by the handler (the fields `http.Cookie` carries
that the handler populates). -/
structure Cookie where
  name : String
  value : String
  path : String
  domain : String
  maxAge : Int
  secure : Bool
  httpOnly : Bool
deriving DecidableEq, Repr

/-- Embeds `Handler.clearStateCookie`: same name/path/domain/secure as the
state cookie, empty value, `MaxAge: -1` (expired immediately). -/
def Handler.clearStateCookie (cfg : OAuthStateCookieConfig) : Cookie :=
  { name := cfg.name, value := "", path := cfg.path, domain := cfg.domain,
    maxAge := -1, secure := cfg.secure, httpOnly := true }

/-- Inputs of one callback request: the `error`, `error_description`,
`state` and `code` query parameters (`""` models an absent parameter, as
`url.Values.Get` returns), and the request cookies as name/value pairs
(`r.Cookie` returns the first cookie with the asked-for name). -/
structure CallbackRequest where
  errParam : String
  errDescription : String
  state : String
  code : String
  cookies : List (String × String)
deriving DecidableEq, Repr

/-- Outcome of `Handler.Callback` up to the outbound `oauthConfig.Exchange`
call: either the handler halts with a response (every halting branch uses
`http.Error`, which writes a plain-text body), or control reaches the
code-for-token exchange. `setCookies` records the `Set-Cookie` headers
emitted before that point. -/
inductive CallbackOutcome where
  | reject (status : Nat) (body : HttpBody) (setCookies : List Cookie)
  | exchange (code : String) (setCookies : List Cookie)
deriving DecidableEq, Repr

/-- Embeds `Handler.Callback` (handler.go lines 96–134): provider-reported
error first, then presence of `state`, then the state cookie, then the
constant-time comparison; the clearing `Set-Cookie` is emitted only after
the comparison succeeds, and the `code` parameter is checked after that. -/
def Handler.Callback (cfg : OAuthStateCookieConfig) (r : CallbackRequest) : CallbackOutcome :=
  if r.errParam ≠ "" then
    let description := if r.errDescription = "" then "authorization failed" else r.errDescription
    .reject 400 (.text ("google oauth error: " ++ description)) []
  else if r.state = "" then
    .reject 400 (.text "missing state parameter") []
  else
    match r.cookies.lookup cfg.name with
    | none => .reject 400 (.text "oauth state cookie not found") []
    | some cookieValue =>
      if constantTimeEqual cookieValue r.state then
        if r.code = "" then
          .reject 400 (.text "missing authorization code") [Handler.clearStateCookie cfg]
        else
          .exchange r.code [Handler.clearStateCookie cfg]
      else
        .reject 400 (.text "invalid oauth state") []

/-- Embeds `Handler.buildStateCookie`: the state cookie set at login, with
the configured name/path/domain/secure/max-age, the token as value, and
`HttpOnly`. -/
def Handler.buildStateCookie (cfg : OAuthStateCookieConfig) (value : String) : Cookie :=
  { name := cfg.name, value := value, path := cfg.path, domain := cfg.domain,
    maxAge := cfg.maxAge, secure := cfg.secure, httpOnly := true }

/-- Outcome of `Handler.Login`: either the error response written when the
random state generation fails (`http.Error`, a plain-text body), or the 302
redirect to the provider's authorization URL carrying the state, with the
state cookie set beforehand. -/
inductive LoginOutcome where
  | reject (status : Nat) (body : HttpBody) (setCookies : List Cookie)
  | redirect (status : Nat) (state : String) (setCookies : List Cookie)
deriving DecidableEq, Repr

/-- Embeds `Handler.Login` (handler.go lines 81–93). The outcome of the
`generateState` call — a `crypto/rand` read performed by the standard
library — is passed in: `none` models a failed read (the handler answers a
plain-text 500 via `http.Error`), `some state` a freshly generated token
(the handler sets the state cookie and redirects, status 302). -/
def Handler.Login (cfg : OAuthStateCookieConfig) (genState : Option String) : LoginOutcome :=
  match genState with
  | none => .reject 500 (.text "failed to initiate oauth flow") []
  | some state => .redirect 302 state [Handler.buildStateCookie cfg state]

/-- Cookies set (as `Set-Cookie` headers) by a callback outcome. -/
def CallbackOutcome.setCookies : CallbackOutcome → List Cookie
  | .reject _ _ cs => cs
  | .exchange _ cs => cs

/-- True exactly when a response body is the structured JSON error object. -/
def HttpBody.isStructuredError : HttpBody → Bool
  | .jsonError _ => true
  | _ => false

/-- Property side of claim C7, following the spec's words: an error response
(any status other than 200/201) carries the structured JSON error body whose
code equals the response status. -/
def specStructuredError (resp : PetResponse) : Prop :=
  resp.status ≠ 200 → resp.status ≠ 201 →
    ∃ m, resp.body = .jsonError { code := resp.status, message := m }

/-- Store invariant of the in-memory server: the `order` slice lists exactly
the keys of the `pets` map, each id exactly once. In the embedding the map's
insertion-ordered key list is `s.pets.map Prod.fst`; `order` being equal to
it (and duplicate-free) pins both inclusions. -/
def InMemoryServer.WellFormed (s : InMemoryServer) : Prop :=
  s.order.Nodup ∧ s.pets.map Prod.fst = s.order

/-- States reachable from the empty store through the one mutating handler,
`CreatePets`. `ListPets` and `ShowPetById` read the state under the shared
lock and return only a response, so they cannot move the state. -/
inductive InMemoryServer.Reachable : InMemoryServer → Prop where
  | init : InMemoryServer.Reachable NewInMemoryServer
  | step (s : InMemoryServer) (body : Option Pet) (h : InMemoryServer.Reachable s) :
      InMemoryServer.Reachable (s.CreatePets body).1

/-- N successive create requests against the in-memory store. -/
def InMemoryServer.createAll (s : InMemoryServer) (ps : List Pet) : InMemoryServer :=
  ps.foldl (fun t p => (t.CreatePets (some p)).1) s

/-- N successive `CreatePet` calls against the relational backend, stopping
at the first error. -/
def PostgresRepository.createAll (t : PgTable) (ps : List Pet) : Except RepoError PgTable :=
  ps.foldlM PostgresRepository.CreatePet t

/-- Store loaded with pets of ids 5, 1, 3, 9 in that insertion order (the
spec's pagination example). -/
def samplePets5139 : InMemoryServer :=
  { pets := [(5, { id := 5, name := "p5", tag := none }),
             (1, { id := 1, name := "p1", tag := none }),
             (3, { id := 3, name := "p3", tag := none }),
             (9, { id := 9, name := "p9", tag := none })],
    order := [5, 1, 3, 9] }

/-- Store loaded with pets of ids 1 and 3 (the spec's last-page example). -/
def samplePets13 : InMemoryServer :=
  { pets := [(1, { id := 1, name := "p1", tag := none }),
             (3, { id := 3, name := "p3", tag := none })],
    order := [1, 3] }

/-! Lemmas about the constant-time comparison primitive. -/

theorem byteOr_lt (x m marker : Nat) (hm : m < 2 ^ 8) (hk : marker < 2 ^ 8) :
    x &&& m ||| marker < 2 ^ 8 :=
  Nat.or_lt_two_pow (Nat.lt_of_le_of_lt Nat.and_le_right hm) hk

theorem utf8Bytes_lt (c : Char) : ∀ x ∈ utf8Bytes c, x < 2 ^ 8 := by
  intro x hx
  simp only [utf8Bytes] at hx
  split at hx
  · next h =>
    simp only [List.mem_singleton] at hx
    subst hx
    calc c.toNat ≤ 0x7f := h
      _ < 2 ^ 8 := by norm_num
  · split at hx
    · simp only [List.mem_cons, List.not_mem_nil, or_false] at hx
      rcases hx with rfl | rfl <;> exact byteOr_lt _ _ _ (by norm_num) (by norm_num)
    · split at hx
      · simp only [List.mem_cons, List.not_mem_nil, or_false] at hx
        rcases hx with rfl | rfl | rfl <;> exact byteOr_lt _ _ _ (by norm_num) (by norm_num)
      · simp only [List.mem_cons, List.not_mem_nil, or_false] at hx
        rcases hx with rfl | rfl | rfl | rfl <;> exact byteOr_lt _ _ _ (by norm_num) (by norm_num)

theorem strBytes_lt (s : String) : ∀ x ∈ strBytes s, x < 2 ^ 8 := by
  intro x hx
  simp only [strBytes, List.mem_flatMap] at hx
  obtain ⟨c, _, hc⟩ := hx
  exact utf8Bytes_lt c x hc

theorem natOr_eq_zero {x y : Nat} : x ||| y = 0 ↔ x = 0 ∧ y = 0 := by
  constructor
  · intro h
    have hb : ∀ i, x.testBit i = false ∧ y.testBit i = false := by
      intro i
      have := congrArg (fun n => n.testBit i) h
      simpa only [Nat.testBit_or, Nat.zero_testBit, Bool.or_eq_false_iff] using this
    constructor
    · exact Nat.eq_of_testBit_eq fun i => by simp [(hb i).1]
    · exact Nat.eq_of_testBit_eq fun i => by simp [(hb i).2]
  · rintro ⟨rfl, rfl⟩
    rfl

theorem ctLoop_snd (xs : List Nat) : ∀ (ys : List Nat) (v : Nat),
    (ctLoop xs ys v).2 = min xs.length ys.length := by
  induction xs with
  | nil => intro ys v; simp [ctLoop]
  | cons x xs ih =>
    intro ys v
    cases ys with
    | nil => simp [ctLoop]
    | cons y ys => simp [ctLoop, ih]; omega

theorem ctLoop_fst_eq_zero (xs : List Nat) : ∀ (ys : List Nat) (v : Nat),
    xs.length = ys.length → ((ctLoop xs ys v).1 = 0 ↔ v = 0 ∧ xs = ys) := by
  induction xs with
  | nil =>
    intro ys v h
    cases ys with
    | nil => simp [ctLoop]
    | cons y ys => simp at h
  | cons x xs ih =>
    intro ys v h
    cases ys with
    | nil => simp at h
    | cons y ys =>
      simp only [ctLoop]
      rw [ih ys _ (by simpa using h), natOr_eq_zero, Nat.xor_eq_zero]
      constructor
      · rintro ⟨⟨hv, rfl⟩, rfl⟩
        exact ⟨hv, rfl⟩
      · rintro ⟨hv, hl⟩
        injection hl with h1 h2
        exact ⟨⟨hv, h1⟩, h2⟩

theorem ctLoop_fst_lt (xs : List Nat) : ∀ (ys : List Nat) (v : Nat),
    (∀ x ∈ xs, x < 2 ^ 8) → (∀ y ∈ ys, y < 2 ^ 8) → v < 2 ^ 8 →
    (ctLoop xs ys v).1 < 2 ^ 8 := by
  induction xs with
  | nil => intro ys v _ _ hv; simpa [ctLoop] using hv
  | cons x xs ih =>
    intro ys v hx hy hv
    cases ys with
    | nil => simpa [ctLoop] using hv
    | cons y ys =>
      simp only [ctLoop]
      exact ih ys _ (fun a ha => hx a (List.mem_cons_of_mem _ ha))
        (fun a ha => hy a (List.mem_cons_of_mem _ ha))
        (Nat.or_lt_two_pow hv
          (Nat.xor_lt_two_pow (hx x (List.mem_cons_self _ _)) (hy y (List.mem_cons_self _ _))))

theorem constantTimeByteEq_one_iff {v : Nat} (h : v < 2 ^ 8) :
    constantTimeByteEq v 0 = 1 ↔ v = 0 := by
  unfold constantTimeByteEq
  rcases Nat.eq_zero_or_pos v with rfl | hpos
  · constructor
    · intro _; rfl
    · intro _; decide
  · rw [Nat.xor_zero]
    have h1 : (v + (2 ^ 32 - 1)) % 2 ^ 32 = v - 1 := by
      have he : v + (2 ^ 32 - 1) = (v - 1) + 1 * 2 ^ 32 := by omega
      rw [he, Nat.add_mul_mod_self_right, Nat.mod_eq_of_lt (by omega)]
    rw [h1, Nat.shiftRight_eq_div_pow]
    have h2 : (v - 1) / 2 ^ 31 = 0 := Nat.div_eq_of_lt (by omega)
    rw [h2]
    constructor
    · intro h0; exact absurd h0 (by decide)
    · intro h0; omega

theorem constantTimeCompare_one_iff {x y : List Nat}
    (hx : ∀ a ∈ x, a < 2 ^ 8) (hy : ∀ a ∈ y, a < 2 ^ 8) :
    constantTimeCompare x y = 1 ↔ x = y := by
  unfold constantTimeCompare
  split
  · next h =>
    constructor
    · intro h0; exact absurd h0 (by decide)
    · intro hxy; exact absurd (congrArg List.length hxy) h
  · next h =>
    have hlen : x.length = y.length := not_not.mp h
    rw [constantTimeByteEq_one_iff (ctLoop_fst_lt x y 0 hx hy (by norm_num)),
      ctLoop_fst_eq_zero x y 0 hlen]
    simp

theorem constantTimeEqual_iff (a b : String) :
    constantTimeEqual a b = true ↔ strBytes a = strBytes b := by
  unfold constantTimeEqual
  split
  · next h =>
    constructor
    · intro h0; exact absurd h0 (by decide)
    · intro hab; exact absurd (congrArg List.length hab) h
  · next h =>
    simp only [beq_iff_eq]
    exact constantTimeCompare_one_iff (strBytes_lt a) (strBytes_lt b)

/-! Branch lemmas for the OAuth callback. -/

theorem Callback_mismatch (cfg : OAuthStateCookieConfig) (r : CallbackRequest) (cv : String)
    (he : r.errParam = "") (hs : r.state ≠ "") (hc : r.cookies.lookup cfg.name = some cv)
    (hne : strBytes cv ≠ strBytes r.state) :
    Handler.Callback cfg r = .reject 400 (.text "invalid oauth state") [] := by
  have hfalse : constantTimeEqual cv r.state = false := by
    rw [← Bool.not_eq_true, constantTimeEqual_iff]
    exact hne
  simp [Handler.Callback, he, hs, hc, hfalse]

theorem Callback_match (cfg : OAuthStateCookieConfig) (r : CallbackRequest) (cv : String)
    (he : r.errParam = "") (hs : r.state ≠ "") (hc : r.cookies.lookup cfg.name = some cv)
    (heq : strBytes cv = strBytes r.state) :
    Handler.Callback cfg r =
      (if r.code = "" then
        .reject 400 (.text "missing authorization code") [Handler.clearStateCookie cfg]
      else
        .exchange r.code [Handler.clearStateCookie cfg]) := by
  have htrue : constantTimeEqual cv r.state = true := (constantTimeEqual_iff cv r.state).mpr heq
  simp [Handler.Callback, he, hs, hc, htrue]

example : validatePet { id := 1, name := "rex", tag := none } = none := by decide
example : (NewInMemoryServer.CreatePets (some { id := 1, name := "rex", tag := none })).2.status
    = 201 := by decide
example : strBytes "ab" = [97, 98] := by decide
example : constantTimeEqual "abc" "abc" = true := by decide
example : constantTimeEqual "abc" "abd" = false := by decide
example : constantTimeEqual "ab" "abc" = false := by decide

/-! Claim C3: state mismatch or absence halts the flow before the exchange. -/

/-- C3: for every OAuth callback request in which the `state` query parameter
is absent, the state cookie is absent, or the two values are not
byte-for-byte equal, the handler answers a 400 bad-request rejection (with no
`Set-Cookie`), so the code-for-token exchange is never reached on that path. -/
theorem c3_state_mismatch_rejected (cfg : OAuthStateCookieConfig) (r : CallbackRequest)
    (h : r.state = "" ∨ r.cookies.lookup cfg.name = none ∨
      ∀ cv, r.cookies.lookup cfg.name = some cv → strBytes cv ≠ strBytes r.state) :
    ∃ body, Handler.Callback cfg r = .reject 400 body [] := by
  by_cases he : r.errParam = ""
  · by_cases hs : r.state = ""
    · exact ⟨.text "missing state parameter", by simp [Handler.Callback, he, hs]⟩
    · rcases h with h | h | h
      · exact absurd h hs
      · exact ⟨.text "oauth state cookie not found", by simp [Handler.Callback, he, hs, h]⟩
      · match hc : r.cookies.lookup cfg.name with
        | none => exact ⟨.text "oauth state cookie not found", by simp [Handler.Callback, he, hs, hc]⟩
        | some cv =>
          exact ⟨.text "invalid oauth state", Callback_mismatch cfg r cv he hs hc (h cv hc)⟩
  · refine ⟨.text ("google oauth error: " ++
      (if r.errDescription = "" then "authorization failed" else r.errDescription)), ?_⟩
    simp [Handler.Callback, he]

/-- Witness for C3 at a concrete input: the state cookie is absent. -/
theorem c3_witness :
    ∃ body, Handler.Callback
      { name := "oauth_state", domain := "", path := "/", maxAge := 600, secure := false }
      { errParam := "", errDescription := "", state := "aaa", code := "c0de", cookies := [] } =
      .reject 400 body [] :=
  c3_state_mismatch_rejected _ _ (Or.inr (Or.inl rfl))

/-! Claim C2: when is the clearing Set-Cookie emitted. -/

/-- C2 fails on the code: a callback that presents a state cookie whose value
does not match the `state` parameter is answered with no `Set-Cookie` at all —
the clearing cookie is emitted only after the comparison succeeds, not
"regardless of match outcome". -/
theorem c2_counterexample :
    Handler.Callback
      { name := "oauth_state", domain := "", path := "/", maxAge := 600, secure := false }
      { errParam := "", errDescription := "", state := "aaa", code := "c0de",
        cookies := [("oauth_state", "bbb")] } =
      .reject 400 (.text "invalid oauth state") [] := by decide

/-- C2 amended: on a callback that presents both a `state` parameter and the
state cookie (and no provider error), the clearing `Set-Cookie` (empty value,
`MaxAge -1`, i.e. expired) is emitted exactly when the two values match
byte-for-byte — also when the authorization `code` then turns out missing —
while a mismatch is answered with no `Set-Cookie`. -/
theorem c2_cookie_cleared_amended (cfg : OAuthStateCookieConfig) (r : CallbackRequest)
    (cv : String) (he : r.errParam = "") (hs : r.state ≠ "")
    (hc : r.cookies.lookup cfg.name = some cv) :
    (strBytes cv = strBytes r.state →
      (Handler.Callback cfg r).setCookies = [Handler.clearStateCookie cfg] ∧
      (Handler.clearStateCookie cfg).value = "" ∧
      (Handler.clearStateCookie cfg).maxAge = -1) ∧
    (strBytes cv ≠ strBytes r.state →
      Handler.Callback cfg r = .reject 400 (.text "invalid oauth state") []) := by
  constructor
  · intro heq
    rw [Callback_match cfg r cv he hs hc heq]
    refine ⟨?_, rfl, rfl⟩
    by_cases hcode : r.code = "" <;> simp [hcode, CallbackOutcome.setCookies]
  · intro hne
    exact Callback_mismatch cfg r cv he hs hc hne

/-- Witness for C2 (amended) at a concrete input: matching state and cookie. -/
theorem c2_witness :
    (Handler.Callback
      { name := "oauth_state", domain := "", path := "/", maxAge := 600, secure := false }
      { errParam := "", errDescription := "", state := "tok", code := "c0de",
        cookies := [("oauth_state", "tok")] }).setCookies =
      [Handler.clearStateCookie
        { name := "oauth_state", domain := "", path := "/", maxAge := 600, secure := false }] :=
  ((c2_cookie_cleared_amended
      { name := "oauth_state", domain := "", path := "/", maxAge := 600, secure := false }
      { errParam := "", errDescription := "", state := "tok", code := "c0de",
        cookies := [("oauth_state", "tok")] }
      "tok" rfl (by decide) (by decide)).1 rfl).1

/-! Claim C9: the comparison is constant-time in the content bytes. -/

/-- C9: the content loop of `subtle.ConstantTimeCompare` performs one
iteration per byte position whatever the byte values are: on any two pairs of
equal-length inputs the iteration counts are the length and hence coincide,
so which bytes differ is not observable in the work done; only the length
check short-circuits (a length mismatch returns 0 before the loop runs). -/
theorem c9_constant_time_compare (a b c d : List Nat)
    (hab : a.length = b.length) (hcd : c.length = d.length)
    (hlen : a.length = c.length) :
    (ctLoop a b 0).2 = a.length ∧ (ctLoop c d 0).2 = c.length ∧
    (ctLoop a b 0).2 = (ctLoop c d 0).2 ∧
    (∀ x y : List Nat, x.length ≠ y.length → constantTimeCompare x y = 0) := by
  refine ⟨?_, ?_, ?_, ?_⟩
  · rw [ctLoop_snd, hab, Nat.min_self]
  · rw [ctLoop_snd, hcd, Nat.min_self]
  · rw [ctLoop_snd, ctLoop_snd]
    omega
  · intro x y h
    simp [constantTimeCompare, h]

/-- Witness for C9 at concrete byte lists: an equal pair and a differing pair
of the same length take the same number of loop iterations. -/
theorem c9_witness :
    (ctLoop [1, 2] [3, 4] 0).2 = 2 ∧ (ctLoop [9, 9] [9, 8] 0).2 = 2 := by
  have h := c9_constant_time_compare [1, 2] [3, 4] [9, 9] [9, 8] rfl rfl rfl
  exact ⟨h.1, h.2.1⟩

/-! Claim C5: limit validation, clamping, and the unbounded default. -/

/-- C5: a negative limit is rejected with a 400 BadRequest by both server
variants; an explicit limit above 100 is silently clamped to 100, so
`limit=1000` behaves exactly as `limit=100`; and an absent limit or
`limit=0` returns all pets with no truncation and no continuation header. -/
theorem c5_limit_handling (s : InMemoryServer) (t : PgTable)
    (rl : Int → Except RepoError (List Pet)) :
    (∀ l : Int, l < 0 → InMemoryServer.ListPets s (some l) =
      writeError 400 "limit must be non-negative") ∧
    (∀ l : Int, l < 0 → Server.ListPets rl (some l) =
      writeError 400 "limit must be non-negative") ∧
    InMemoryServer.ListPets s (some 1000) = InMemoryServer.ListPets s (some 100) ∧
    Server.ListPets rl (some 1000) = Server.ListPets rl (some 100) ∧
    InMemoryServer.ListPets s none =
      { status := 200, xNext := none, body := .jsonPets (sortPets s.collectPets) } ∧
    InMemoryServer.ListPets s (some 0) =
      { status := 200, xNext := none, body := .jsonPets (sortPets s.collectPets) } ∧
    postgresServerList t none =
      { status := 200, xNext := none, body := .jsonPets (sortPets t.rows) } ∧
    postgresServerList t (some 0) =
      { status := 200, xNext := none, body := .jsonPets (sortPets t.rows) } := by
  refine ⟨?_, ?_, ?_, ?_, ?_, ?_, ?_, ?_⟩
  · intro l hl
    simp [InMemoryServer.ListPets, hl]
  · intro l hl
    simp [Server.ListPets, hl]
  · norm_num [InMemoryServer.ListPets]
  · norm_num [Server.ListPets]
  · simp [InMemoryServer.ListPets, InMemoryServer.listWith]
  · norm_num [InMemoryServer.ListPets, InMemoryServer.listWith]
  · simp [postgresServerList, Server.ListPets, Server.listWith, PostgresRepository.ListPets]
  · norm_num [postgresServerList, Server.ListPets, Server.listWith, PostgresRepository.ListPets]

/-- Witness for C5 at concrete inputs: limit -1 is rejected on the sample
store, and limit 1000 lists the same as limit 100. -/
theorem c5_witness :
    InMemoryServer.ListPets samplePets13 (some (-1)) =
      writeError 400 "limit must be non-negative" ∧
    InMemoryServer.ListPets samplePets13 (some 1000) =
      InMemoryServer.ListPets samplePets13 (some 100) := by
  have h := c5_limit_handling samplePets13 { rows := [] } (fun _ => .ok [])
  exact ⟨h.1 (-1) (by norm_num), h.2.2.1⟩

/-! Claim C6: create-request semantics. -/

/-- C6: a malformed body yields a 400; `id == 0` or an empty name yields a
400 naming the missing field; an id already in the store yields a 409
Conflict; all three error paths leave the store unchanged; otherwise the pet
is appended to the map and the order slice and the response is a 201 Created
with an empty body. -/
theorem c6_create_semantics (s : InMemoryServer) :
    InMemoryServer.CreatePets s none = (s, writeError 400 "invalid JSON body") ∧
    (∀ p : Pet, p.id = 0 → InMemoryServer.CreatePets s (some p) =
      (s, writeError 400 "id is required")) ∧
    (∀ p : Pet, p.id ≠ 0 → p.name = "" → InMemoryServer.CreatePets s (some p) =
      (s, writeError 400 "name is required")) ∧
    (∀ p : Pet, p.id ≠ 0 → p.name ≠ "" → (s.pets.lookup p.id).isSome →
      InMemoryServer.CreatePets s (some p) = (s, writeError 409 "pet already exists")) ∧
    (∀ p : Pet, p.id ≠ 0 → p.name ≠ "" → s.pets.lookup p.id = none →
      InMemoryServer.CreatePets s (some p) =
        ({ pets := s.pets ++ [(p.id, p)], order := s.order ++ [p.id] },
         { status := 201, xNext := none, body := .empty })) := by
  refine ⟨rfl, ?_, ?_, ?_, ?_⟩
  · intro p h
    simp [InMemoryServer.CreatePets, validatePet, h]
  · intro p hid hname
    simp [InMemoryServer.CreatePets, validatePet, hid, hname]
  · intro p hid hname hmem
    simp [InMemoryServer.CreatePets, validatePet, hid, hname, hmem]
  · intro p hid hname hmem
    simp [InMemoryServer.CreatePets, validatePet, hid, hname, hmem]

/-- Witness for C6 at concrete inputs: inserting pet 7 into the empty store
succeeds, and a zero id is rejected. -/
theorem c6_witness :
    InMemoryServer.CreatePets NewInMemoryServer (some { id := 7, name := "rex", tag := none }) =
      ({ pets := [(7, { id := 7, name := "rex", tag := none })], order := [7] },
       { status := 201, xNext := none, body := .empty }) ∧
    InMemoryServer.CreatePets NewInMemoryServer (some { id := 0, name := "rex", tag := none }) =
      (NewInMemoryServer, writeError 400 "id is required") := by
  have h := c6_create_semantics NewInMemoryServer
  exact ⟨h.2.2.2.2 _ (by decide) (by decide) rfl, h.2.1 _ rfl⟩

/-! Claim C10: the order-slice/map invariant of the in-memory store. -/

/-- State transition of `CreatePets`: the store is unchanged on every error
path, and on success the pet is appended to the map and its id to `order`. -/
theorem CreatePets_state (s : InMemoryServer) (body : Option Pet) :
    (s.CreatePets body).1 = s ∨
    ∃ p, body = some p ∧ validatePet p = none ∧ s.pets.lookup p.id = none ∧
      (s.CreatePets body).1 =
        { pets := s.pets ++ [(p.id, p)], order := s.order ++ [p.id] } := by
  match body with
  | none => exact Or.inl rfl
  | some p =>
    match hv : validatePet p with
    | some m =>
      left
      simp [InMemoryServer.CreatePets, hv]
    | none =>
      match hl : s.pets.lookup p.id with
      | some q =>
        left
        simp [InMemoryServer.CreatePets, hv, hl]
      | none =>
        right
        exact ⟨p, rfl, hv, hl, by simp [InMemoryServer.CreatePets, hv, hl]⟩

/-- One create step preserves the store invariant. -/
theorem WellFormed_create (s : InMemoryServer) (body : Option Pet)
    (h : s.WellFormed) : (s.CreatePets body).1.WellFormed := by
  rcases CreatePets_state s body with heq | ⟨p, _, _, hl, heq⟩
  · rw [heq]
    exact h
  · rw [heq]
    obtain ⟨hnd, hkeys⟩ := h
    have hnotin : p.id ∉ s.order := by
      rw [← hkeys]
      intro hmem
      rw [List.lookup_eq_none_iff] at hl
      obtain ⟨q, hq, hqid⟩ := List.mem_map.mp hmem
      have := hl q hq
      simp [← hqid] at this
    constructor
    · rw [List.nodup_append]
      refine ⟨hnd, List.nodup_singleton _, ?_⟩
      intro a ha hb
      simp only [List.mem_singleton] at hb
      exact hnotin (hb ▸ ha)
    · simp [hkeys]

/-- C10: every state reachable from the empty store satisfies the invariant
(the `order` slice equals the key list of the map and has no duplicates);
`CreatePets` preserves the invariant, appending the id to `order` exactly
when it inserts into the map and leaving both unchanged on its error paths.
`ListPets` and `ShowPetById` take the state under the read lock and return
only a response, so they move no state. -/
theorem c10_store_invariant (s : InMemoryServer) (h : s.Reachable) :
    s.WellFormed ∧
    ∀ body : Option Pet,
      (s.CreatePets body).1.WellFormed ∧
      ((s.CreatePets body).1 = s ∨
        ∃ p, body = some p ∧ validatePet p = none ∧ s.pets.lookup p.id = none ∧
          (s.CreatePets body).1 =
            { pets := s.pets ++ [(p.id, p)], order := s.order ++ [p.id] }) := by
  have hwf : s.WellFormed := by
    induction h with
    | init => exact ⟨List.nodup_nil, rfl⟩
    | step s body _ ih => exact WellFormed_create s body ih
  exact ⟨hwf, fun body => ⟨WellFormed_create s body hwf, CreatePets_state s body⟩⟩

/-- Witness for C10 at a concrete reachable state: the store after one
insert satisfies the invariant. -/
theorem c10_witness :
    (NewInMemoryServer.CreatePets (some { id := 7, name := "rex", tag := none })).1.WellFormed :=
  ((c10_store_invariant NewInMemoryServer InMemoryServer.Reachable.init).2
    (some { id := 7, name := "rex", tag := none })).1

/-! Claim C8: create-then-get round-trip on both backends. -/

/-- C8: creating a valid, fresh pet and then getting its id returns the very
same pet on both backends — equal `id`, `name` and `tag`; in particular a
pet created without a tag (`tag = none`) is returned with `tag = none`, not
with an empty-string tag, on both the in-memory store and the relational
store (where a `none` tag is stored as SQL `NULL` and scans back as
`none`). -/
theorem c8_roundtrip (s : InMemoryServer) (t : PgTable) (p : Pet)
    (hid : p.id ≠ 0) (hname : p.name ≠ "")
    (hmem : s.pets.lookup p.id = none)
    (hpg : ∀ q ∈ t.rows, q.id ≠ p.id) :
    ((s.CreatePets (some p)).2 = { status := 201, xNext := none, body := .empty } ∧
      (s.CreatePets (some p)).1.ShowPetById (some p.id) =
        { status := 200, xNext := none, body := .jsonPet p }) ∧
    ∃ t', PostgresRepository.CreatePet t p = .ok t' ∧
      PostgresRepository.GetPet t' p.id = .ok p := by
  refine ⟨⟨?_, ?_⟩, ?_⟩
  · simp [InMemoryServer.CreatePets, validatePet, hid, hname, hmem]
  · have hstate : (s.CreatePets (some p)).1 =
        { pets := s.pets ++ [(p.id, p)], order := s.order ++ [p.id] } := by
      simp [InMemoryServer.CreatePets, validatePet, hid, hname, hmem]
    rw [hstate]
    simp [InMemoryServer.ShowPetById, List.lookup_append, hmem]
  · have hany : t.rows.any (fun q => q.id == p.id) = false := by
      rw [List.any_eq_false]
      intro q hq
      simpa using hpg q hq
    refine ⟨{ rows := t.rows ++ [p] }, by simp [PostgresRepository.CreatePet, hany], ?_⟩
    have hfind : t.rows.find? (fun q => q.id == p.id) = none := by
      rw [List.find?_eq_none]
      intro q hq
      simpa using hpg q hq
    simp [PostgresRepository.GetPet, List.find?_append, hfind]

/-- Witness for C8 at a concrete input: a tagless pet round-trips through
the empty in-memory store and the empty table. -/
theorem c8_witness :
    ((NewInMemoryServer.CreatePets (some { id := 7, name := "rex", tag := none })).2 =
        { status := 201, xNext := none, body := .empty } ∧
      (NewInMemoryServer.CreatePets
          (some { id := 7, name := "rex", tag := none })).1.ShowPetById (some 7) =
        { status := 200, xNext := none,
          body := .jsonPet { id := 7, name := "rex", tag := none } }) ∧
    ∃ t', PostgresRepository.CreatePet { rows := [] } { id := 7, name := "rex", tag := none } =
        .ok t' ∧
      PostgresRepository.GetPet t' 7 = .ok { id := 7, name := "rex", tag := none } :=
  c8_roundtrip NewInMemoryServer { rows := [] } { id := 7, name := "rex", tag := none }
    (by decide) (by decide) rfl (by simp)

/-! Claim C4: list output is sorted on both backends. -/

/-- Result of the shared sort is nondecreasing in id. -/
theorem sortPets_sorted (ps : List Pet) : (sortPets ps).Sorted petIdLe :=
  List.sorted_insertionSort petIdLe ps

/-- Result of the shared sort is a permutation of its input. -/
theorem sortPets_perm (ps : List Pet) : (sortPets ps).Perm ps :=
  List.perm_insertionSort petIdLe ps

/-- A nondecreasing pet list with duplicate-free ids is strictly increasing
in id. -/
theorem sorted_strict_of_nodup {l : List Pet} (hs : l.Sorted petIdLe)
    (hnd : (l.map Pet.id).Nodup) : l.Pairwise (fun p q => p.id < q.id) := by
  have hne : l.Pairwise (fun p q => p.id ≠ q.id) := List.pairwise_map.mp hnd
  exact (hs.and hne).imp fun h => lt_of_le_of_ne h.1 h.2

/-- Body produced by the in-memory truncation step is always a sorted pet
array. -/
theorem listWith_body (s : InMemoryServer) (L : Int) :
    ∃ l, (s.listWith L).body = .jsonPets l ∧ l.Sorted petIdLe := by
  simp only [InMemoryServer.listWith]
  split
  · exact ⟨_, rfl, List.Pairwise.sublist (List.take_sublist _ _) (sortPets_sorted _)⟩
  · exact ⟨_, rfl, sortPets_sorted _⟩

/-- Looking up a pet's id in the association list built from a
duplicate-free pet list finds that pet. -/
theorem lookup_pairs_self : ∀ (ps : List Pet) (p : Pet), p ∈ ps →
    (ps.map Pet.id).Nodup →
    (ps.map fun q => (q.id, q)).lookup p.id = some p := by
  intro ps
  induction ps with
  | nil => intro p hp; cases hp
  | cons q ps ih =>
    intro p hp hnd
    simp only [List.map_cons, List.nodup_cons] at hnd
    rcases List.mem_cons.mp hp with rfl | hp'
    · simp [List.lookup]
    · have hne : p.id ≠ q.id := by
        intro he
        exact hnd.1 (he ▸ List.mem_map.mpr ⟨p, hp', rfl⟩)
      have hbeq : (p.id == q.id) = false := by simpa using hne
      simp only [List.map_cons, List.lookup_cons, hbeq]
      exact ih p hp' hnd.2

/-- Collecting the pets of a store whose map and order slice were built from
a duplicate-free pet list returns exactly that list. -/
theorem collectPets_eq (s : InMemoryServer) (ps : List Pet)
    (hp : s.pets = ps.map (fun p => (p.id, p))) (ho : s.order = ps.map Pet.id)
    (hnd : (ps.map Pet.id).Nodup) : s.collectPets = ps := by
  unfold InMemoryServer.collectPets
  rw [hp, ho, List.map_map]
  have hpt : ∀ p ∈ ps,
      ((fun id => ((ps.map fun q => (q.id, q)).lookup id).getD zeroPet) ∘ Pet.id) p = id p := by
    intro p hmem
    simp only [Function.comp_apply, id_eq]
    rw [lookup_pairs_self ps p hmem hnd]
    rfl
  rw [List.map_congr_left hpt, List.map_id]

/-- Folding valid, fresh creates over the in-memory store appends the pets
to the map and their ids to the order slice. -/
theorem createAll_state : ∀ (ps : List Pet) (s : InMemoryServer),
    (∀ p ∈ ps, validatePet p = none) → (ps.map Pet.id).Nodup →
    (∀ p ∈ ps, s.pets.lookup p.id = none) →
    (s.createAll ps).pets = s.pets ++ ps.map (fun p => (p.id, p)) ∧
    (s.createAll ps).order = s.order ++ ps.map Pet.id := by
  intro ps
  induction ps with
  | nil => intro s _ _ _; simp [InMemoryServer.createAll]
  | cons p ps ih =>
    intro s hv hnd hl
    have hnd' : p.id ∉ ps.map Pet.id ∧ (ps.map Pet.id).Nodup := by
      simpa using hnd
    have hstep : (s.CreatePets (some p)).1 =
        { pets := s.pets ++ [(p.id, p)], order := s.order ++ [p.id] } := by
      simp [InMemoryServer.CreatePets, hv p (List.mem_cons_self p ps),
        hl p (List.mem_cons_self p ps)]
    have hfresh : ∀ q ∈ ps, (s.CreatePets (some p)).1.pets.lookup q.id = none := by
      intro q hq
      rw [hstep]
      have h1 : s.pets.lookup q.id = none := hl q (List.mem_cons_of_mem p hq)
      have h2 : q.id ≠ p.id := by
        intro he
        exact hnd'.1 (he ▸ List.mem_map.mpr ⟨q, hq, rfl⟩)
      have hbeq : (q.id == p.id) = false := by simpa using h2
      rw [List.lookup_append, h1]
      simp [List.lookup, hbeq]
    have hrec := ih ((s.CreatePets (some p)).1)
      (fun q hq => hv q (List.mem_cons_of_mem p hq)) hnd'.2 hfresh
    have hcons : s.createAll (p :: ps) = ((s.CreatePets (some p)).1).createAll ps := rfl
    rw [hcons, hrec.1, hrec.2, hstep]
    simp

/-- Folding fresh creates with duplicate-free ids over the relational store
succeeds and appends the rows. -/
theorem pg_createAll_ok : ∀ (ps : List Pet) (t : PgTable),
    (∀ p ∈ ps, ∀ q ∈ t.rows, q.id ≠ p.id) → (ps.map Pet.id).Nodup →
    PostgresRepository.createAll t ps = .ok { rows := t.rows ++ ps } := by
  intro ps
  induction ps with
  | nil =>
    intro t _ _
    simp only [PostgresRepository.createAll, List.foldlM_nil, List.append_nil]
    rfl
  | cons p ps ih =>
    intro t hf hnd
    have hnd' : p.id ∉ ps.map Pet.id ∧ (ps.map Pet.id).Nodup := by
      simpa using hnd
    have hany : t.rows.any (fun q => q.id == p.id) = false := by
      rw [List.any_eq_false]
      intro q hq
      simpa using hf p (List.mem_cons_self p ps) q hq
    have hcreate : PostgresRepository.CreatePet t p = .ok { rows := t.rows ++ [p] } := by
      simp [PostgresRepository.CreatePet, hany]
    have hcons : PostgresRepository.createAll t (p :: ps) =
        (PostgresRepository.CreatePet t p >>= fun t' => PostgresRepository.createAll t' ps) := by
      simp [PostgresRepository.createAll]
    rw [hcons, hcreate]
    have hf' : ∀ r ∈ ps, ∀ q ∈ t.rows ++ [p], q.id ≠ r.id := by
      intro r hr q hq
      rcases List.mem_append.mp hq with hq' | hq'
      · exact hf r (List.mem_cons_of_mem p hr) q hq'
      · rcases List.mem_singleton.mp hq' with rfl
        intro he
        exact hnd'.1 (he ▸ List.mem_map.mpr ⟨r, hr, rfl⟩)
    have := ih { rows := t.rows ++ [p] } hf' hnd'.2
    show PostgresRepository.createAll { rows := t.rows ++ [p] } ps = _
    rw [this]
    simp

/-- C4: the output of list is sorted by ascending id on every state of
either backend and for every limit; and after N creates of valid pets with
distinct ids (in any insertion order), an unbounded list returns exactly
those N pets in strictly ascending id order, on both backends. -/
theorem c4_list_sorted :
    (∀ (s : InMemoryServer) (lp : Option Int),
      (∃ e, (InMemoryServer.ListPets s lp).body = .jsonError e) ∨
      (∃ l, (InMemoryServer.ListPets s lp).body = .jsonPets l ∧ l.Sorted petIdLe)) ∧
    (∀ (t : PgTable) (limit : Int), (PostgresRepository.ListPets t limit).Sorted petIdLe) ∧
    (∀ ps : List Pet, (∀ p ∈ ps, validatePet p = none) → (ps.map Pet.id).Nodup →
      (∃ l, (NewInMemoryServer.createAll ps).ListPets none =
          { status := 200, xNext := none, body := .jsonPets l } ∧
        l.Perm ps ∧ l.Pairwise (fun p q => p.id < q.id)) ∧
      PostgresRepository.createAll { rows := [] } ps = .ok { rows := ps } ∧
      (PostgresRepository.ListPets { rows := ps } 0).Perm ps ∧
      (PostgresRepository.ListPets { rows := ps } 0).Pairwise (fun p q => p.id < q.id)) := by
  refine ⟨?_, ?_, ?_⟩
  · intro s lp
    match lp with
    | none =>
      right
      exact listWith_body s 0
    | some l =>
      by_cases hl : l < 0
      · left
        refine ⟨{ code := 400, message := "limit must be non-negative" }, ?_⟩
        simp [InMemoryServer.ListPets, hl, writeError]
      · right
        have : InMemoryServer.ListPets s (some l) = s.listWith (if l > 100 then 100 else l) := by
          simp [InMemoryServer.ListPets, hl]
        rw [this]
        exact listWith_body s _
  · intro t limit
    simp only [PostgresRepository.ListPets]
    split
    · exact List.Pairwise.sublist (List.take_sublist _ _) (sortPets_sorted _)
    · exact sortPets_sorted _
  · intro ps hv hnd
    have hstate := createAll_state ps NewInMemoryServer hv hnd (fun p _ => rfl)
    simp only [NewInMemoryServer] at hstate
    have hcollect : (NewInMemoryServer.createAll ps).collectPets = ps :=
      collectPets_eq _ ps (by simpa using hstate.1) (by simpa using hstate.2) hnd
    have hsortnd : ((sortPets ps).map Pet.id).Nodup :=
      (((sortPets_perm ps).map Pet.id).nodup_iff).mpr hnd
    refine ⟨⟨sortPets ps, ?_, sortPets_perm ps,
        sorted_strict_of_nodup (sortPets_sorted ps) hsortnd⟩, ?_, ?_, ?_⟩
    · simp [InMemoryServer.ListPets, InMemoryServer.listWith, hcollect]
    · exact pg_createAll_ok ps { rows := [] } (by simp) hnd
    · show (PostgresRepository.ListPets { rows := ps } 0).Perm ps
      simp only [PostgresRepository.ListPets]
      norm_num
      exact sortPets_perm ps
    · show (PostgresRepository.ListPets { rows := ps } 0).Pairwise fun p q => p.id < q.id
      simp only [PostgresRepository.ListPets]
      norm_num
      exact sorted_strict_of_nodup (sortPets_sorted ps) hsortnd

/-- Witness for C4 at a concrete input: two valid pets inserted in
descending id order list back in ascending order on both backends. -/
theorem c4_witness :
    (∃ l, (NewInMemoryServer.createAll
        [{ id := 3, name := "b", tag := none }, { id := 1, name := "a", tag := none }]).ListPets
          none =
        { status := 200, xNext := none, body := .jsonPets l } ∧
      l.Perm [{ id := 3, name := "b", tag := none }, { id := 1, name := "a", tag := none }] ∧
      l.Pairwise (fun p q => p.id < q.id)) ∧
    PostgresRepository.createAll { rows := [] }
        [{ id := 3, name := "b", tag := none }, { id := 1, name := "a", tag := none }] =
      .ok { rows := [{ id := 3, name := "b", tag := none },
                     { id := 1, name := "a", tag := none }] } := by
  have h := c4_list_sorted.2.2
    [{ id := 3, name := "b", tag := none }, { id := 1, name := "a", tag := none }]
    (by decide) (by decide)
  exact ⟨h.1, h.2.1⟩

/-! Claim C1: the continuation hint. -/

/-- C1 fails as stated: the `x-next` value the code emits for the spec's own
example is `/pets?limit=2&after=5` — the `limit=<L>&after=<nextId>` query
with a `/pets?` path in front — not the bare `limit=2&after=5` the claim
requires "exactly". -/
theorem c1_counterexample :
    (samplePets5139.ListPets (some 2)).xNext = some "/pets?limit=2&after=5" ∧
    (samplePets5139.ListPets (some 2)).xNext ≠ some "limit=2&after=5" := by decide

/-- C1 amended: when a positive effective limit L truncates the result, both
server variants emit the continuation hint `/pets?limit=<L>&after=<nextId>`
(the claim's query fragment behind the `/pets?` path), where nextId is the
id of the first excluded record — the (L+1)-th pet in ascending-id order;
when no record is excluded, no hint is emitted. Concretely, list(limit=2)
over pets with ids [5,1,3,9] returns [1,3] with hint `/pets?limit=2&after=5`
and list(limit=2) over [1,3] returns [1,3] with no hint. -/
theorem c1_pagination_hint_amended :
    (∀ (s : InMemoryServer) (L : Int), 0 < L → L ≤ 100 →
      (L < ((sortPets s.collectPets).length : Int) →
        InMemoryServer.ListPets s (some L) =
          { status := 200,
            xNext := some ("/pets?limit=" ++ toString L ++ "&after=" ++
              toString ((sortPets s.collectPets).getD L.toNat zeroPet).id),
            body := .jsonPets ((sortPets s.collectPets).take L.toNat) }) ∧
      (((sortPets s.collectPets).length : Int) ≤ L →
        InMemoryServer.ListPets s (some L) =
          { status := 200, xNext := none, body := .jsonPets (sortPets s.collectPets) })) ∧
    (∀ (t : PgTable) (L : Int), 0 < L → L ≤ 100 →
      (L < ((sortPets t.rows).length : Int) →
        postgresServerList t (some L) =
          { status := 200,
            xNext := some ("/pets?limit=" ++ toString L ++ "&after=" ++
              toString ((sortPets t.rows).getD L.toNat zeroPet).id),
            body := .jsonPets ((sortPets t.rows).take L.toNat) }) ∧
      (((sortPets t.rows).length : Int) ≤ L →
        postgresServerList t (some L) =
          { status := 200, xNext := none, body := .jsonPets (sortPets t.rows) })) ∧
    samplePets5139.ListPets (some 2) =
      { status := 200, xNext := some "/pets?limit=2&after=5",
        body := .jsonPets [{ id := 1, name := "p1", tag := none },
                           { id := 3, name := "p3", tag := none }] } ∧
    samplePets13.ListPets (some 2) =
      { status := 200, xNext := none,
        body := .jsonPets [{ id := 1, name := "p1", tag := none },
                           { id := 3, name := "p3", tag := none }] } := by
  refine ⟨?_, ?_, by decide, by decide⟩
  · intro s L h0 h100
    have hstep : InMemoryServer.ListPets s (some L) = s.listWith L := by
      have h1 : ¬ L < 0 := by omega
      have h2 : ¬ L > 100 := by omega
      simp [InMemoryServer.ListPets, h1, h2]
    constructor
    · intro hlt
      rw [hstep]
      simp only [InMemoryServer.listWith]
      rw [if_pos ⟨h0, hlt⟩]
    · intro hge
      rw [hstep]
      simp only [InMemoryServer.listWith]
      rw [if_neg (by omega)]
  · intro t L h0 h100
    have hstep : postgresServerList t (some L) =
        Server.listWith (fun l => .ok (PostgresRepository.ListPets t l)) L := by
      have h1 : ¬ L < 0 := by omega
      have h2 : ¬ L > 100 := by omega
      simp [postgresServerList, Server.ListPets, h1, h2]
    have hfetch : Server.listWith (fun l => .ok (PostgresRepository.ListPets t l)) L =
        (if L > 0 ∧ L < (((sortPets t.rows).take (L + 1).toNat).length : Int) then
          { status := 200,
            xNext := some ("/pets?limit=" ++ toString L ++ "&after=" ++
              toString (((sortPets t.rows).take (L + 1).toNat).getD L.toNat zeroPet).id),
            body := .jsonPets (((sortPets t.rows).take (L + 1).toNat).take L.toNat) }
        else
          { status := 200, xNext := none,
            body := .jsonPets ((sortPets t.rows).take (L + 1).toNat) }) := by
      have hpos : L + 1 > 0 := by omega
      simp only [Server.listWith, PostgresRepository.ListPets]
      rw [if_pos h0, if_pos hpos]
    constructor
    · intro hlt
      have hlen : ((sortPets t.rows).take (L + 1).toNat).length = (L + 1).toNat := by
        rw [List.length_take]
        omega
      have hidx : L.toNat < (L + 1).toNat := by omega
      rw [hstep, hfetch, if_pos ⟨h0, by rw [hlen]; omega⟩]
      have hgd : ((sortPets t.rows).take (L + 1).toNat).getD L.toNat zeroPet =
          (sortPets t.rows).getD L.toNat zeroPet := by
        rw [List.getD_eq_getElem?_getD, List.getD_eq_getElem?_getD,
          List.getElem?_take_of_lt hidx]
      have htk : ((sortPets t.rows).take (L + 1).toNat).take L.toNat =
          (sortPets t.rows).take L.toNat := by
        rw [List.take_take]
        congr 1
        omega
      rw [hgd, htk]
    · intro hge
      have htall : (sortPets t.rows).take (L + 1).toNat = sortPets t.rows :=
        List.take_of_length_le (by omega)
      rw [hstep, hfetch, htall, if_neg (by omega)]

/-- Witness for C1 (amended) at a concrete input: the sample store of ids
[5,1,3,9] with limit 2 produces the prefixed hint. -/
theorem c1_witness :
    InMemoryServer.ListPets samplePets5139 (some 2) =
      { status := 200,
        xNext := some ("/pets?limit=" ++ toString (2 : Int) ++ "&after=" ++
          toString ((sortPets samplePets5139.collectPets).getD (2 : Int).toNat zeroPet).id),
        body := .jsonPets ((sortPets samplePets5139.collectPets).take (2 : Int).toNat) } :=
  ((c1_pagination_hint_amended.1 samplePets5139 2 (by norm_num) (by norm_num)).1 (by decide))

/-! Claim C7: shape of error bodies. -/

/-- Responses produced by `writeError` satisfy the structured-error shape. -/
theorem specStructuredError_writeError (st : Nat) (m : String) :
    specStructuredError (writeError st m) := fun _ _ => ⟨m, rfl⟩

/-- Success responses vacuously satisfy the structured-error shape. -/
theorem specStructuredError_200 (x : Option String) (b : HttpBody) :
    specStructuredError { status := 200, xNext := x, body := b } := fun h _ => absurd rfl h

/-- Created responses vacuously satisfy the structured-error shape. -/
theorem specStructuredError_201 (x : Option String) (b : HttpBody) :
    specStructuredError { status := 201, xNext := x, body := b } := fun _ h => absurd rfl h

/-- Every response of the in-memory truncation step is a 200. -/
theorem specStructuredError_listWith (s : InMemoryServer) (L : Int) :
    specStructuredError (s.listWith L) := by
  simp only [InMemoryServer.listWith]
  split
  · exact specStructuredError_200 _ _
  · exact specStructuredError_200 _ _

/-- Every response of the repository-backed truncation step is a 200 or the
fixed 500 error. -/
theorem specStructuredError_serverListWith (rl : Int → Except RepoError (List Pet)) (L : Int) :
    specStructuredError (Server.listWith rl L) := by
  simp only [Server.listWith]
  split
  · exact specStructuredError_writeError _ _
  · split
    · exact specStructuredError_200 _ _
    · exact specStructuredError_200 _ _

/-- C7 fails as stated: the OAuth callback writes its error responses with
`http.Error`, a plain-text body, not the structured JSON error object — here
the missing-state rejection. -/
theorem c7_counterexample :
    Handler.Callback
      { name := "oauth_state", domain := "", path := "/", maxAge := 600, secure := false }
      { errParam := "", errDescription := "", state := "", code := "", cookies := [] } =
      .reject 400 (.text "missing state parameter") [] ∧
    (HttpBody.text "missing state parameter").isStructuredError = false := by decide

/-- C7 amended: every error response of the pet endpoints (both server
variants) is the structured JSON body `{"code": int, "message": string}`
with the code equal to the status, and internal repository faults are mapped
to fixed messages that never contain the backend error detail; the OAuth
login and callback endpoints, by contrast, write their error responses as
plain text via `http.Error`, not as the structured body. -/
theorem c7_error_bodies_amended :
    (∀ (s : InMemoryServer) (lp : Option Int),
      specStructuredError (InMemoryServer.ListPets s lp)) ∧
    (∀ (s : InMemoryServer) (b : Option Pet),
      specStructuredError (InMemoryServer.CreatePets s b).2) ∧
    (∀ (s : InMemoryServer) (pid : Option Int),
      specStructuredError (InMemoryServer.ShowPetById s pid)) ∧
    (∀ (rl : Int → Except RepoError (List Pet)) (lp : Option Int),
      specStructuredError (Server.ListPets rl lp)) ∧
    (∀ (rc : Pet → Except RepoError Unit) (b : Option Pet),
      specStructuredError (Server.CreatePets rc b)) ∧
    (∀ (rg : Int → Except RepoError Pet) (pid : Option Int),
      specStructuredError (Server.ShowPetById rg pid)) ∧
    (∀ (detail : String) (limit : Int),
      Server.listWith (fun _ => .error (.other detail)) limit =
        writeError 500 "failed to list pets") ∧
    (∀ (detail : String) (p : Pet), validatePet p = none →
      Server.CreatePets (fun _ => .error (.other detail)) (some p) =
        writeError 500 "failed to create pet") ∧
    (∀ (detail : String) (id : Int),
      Server.ShowPetById (fun _ => .error (.other detail)) (some id) =
        writeError 500 "failed to fetch pet") ∧
    (∀ (cfg : OAuthStateCookieConfig) (r : CallbackRequest) (st : Nat) (b : HttpBody)
      (cs : List Cookie), Handler.Callback cfg r = .reject st b cs →
        ∃ m, b = .text m ∧ b.isStructuredError = false) ∧
    (∀ (cfg : OAuthStateCookieConfig) (genState : Option String) (st : Nat) (b : HttpBody)
      (cs : List Cookie), Handler.Login cfg genState = .reject st b cs →
        ∃ m, b = .text m ∧ b.isStructuredError = false) := by
  refine ⟨?_, ?_, ?_, ?_, ?_, ?_, ?_, ?_, ?_, ?_, ?_⟩
  · intro s lp
    match lp with
    | none => exact specStructuredError_listWith s 0
    | some l =>
      simp only [InMemoryServer.ListPets]
      split
      · exact specStructuredError_writeError _ _
      · exact specStructuredError_listWith s _
  · intro s b
    match b with
    | none => exact specStructuredError_writeError _ _
    | some p =>
      simp only [InMemoryServer.CreatePets]
      split
      · exact specStructuredError_writeError _ _
      · split
        · exact specStructuredError_writeError _ _
        · exact specStructuredError_201 _ _
  · intro s pid
    match pid with
    | none => exact specStructuredError_writeError _ _
    | some id =>
      simp only [InMemoryServer.ShowPetById]
      split
      · exact specStructuredError_writeError _ _
      · exact specStructuredError_200 _ _
  · intro rl lp
    match lp with
    | none => exact specStructuredError_serverListWith rl 0
    | some l =>
      simp only [Server.ListPets]
      split
      · exact specStructuredError_writeError _ _
      · exact specStructuredError_serverListWith rl _
  · intro rc b
    match b with
    | none => exact specStructuredError_writeError _ _
    | some p =>
      simp only [Server.CreatePets]
      split
      · exact specStructuredError_writeError _ _
      · split
        · split
          · exact specStructuredError_writeError _ _
          · exact specStructuredError_writeError _ _
        · exact specStructuredError_201 _ _
  · intro rg pid
    match pid with
    | none => exact specStructuredError_writeError _ _
    | some id =>
      simp only [Server.ShowPetById]
      split
      · split
        · exact specStructuredError_writeError _ _
        · exact specStructuredError_writeError _ _
      · exact specStructuredError_200 _ _
  · intro detail limit
    rfl
  · intro detail p hv
    simp [Server.CreatePets, hv]
  · intro detail id
    rfl
  · intro cfg r st b cs h
    unfold Handler.Callback at h
    split at h
    · simp only at h
      cases h
      exact ⟨_, rfl, rfl⟩
    · split at h
      · cases h
        exact ⟨_, rfl, rfl⟩
      · split at h
        · cases h
          exact ⟨_, rfl, rfl⟩
        · split at h
          · split at h
            · cases h
              exact ⟨_, rfl, rfl⟩
            · cases h
          · cases h
            exact ⟨_, rfl, rfl⟩
  · intro cfg genState st b cs h
    match genState with
    | none =>
      cases h
      exact ⟨_, rfl, rfl⟩
    | some state =>
      exact absurd h (by simp [Handler.Login])

/-- Witness for C7 (amended) at a concrete input: a backend fault whose
detail text looks secret gets the fixed message. -/
theorem c7_witness :
    Server.CreatePets (fun _ => .error (.other "pq: password authentication failed"))
      (some { id := 7, name := "rex", tag := none }) =
      writeError 500 "failed to create pet" :=
  c7_error_bodies_amended.2.2.2.2.2.2.2.1 "pq: password authentication failed"
    { id := 7, name := "rex", tag := none } rfl
